import Mathlib

/-!
Shallow embedding of the SpinesegTool repository core: the orientation
transforms of src/segtool/core/nifti_io.py and src/segtool/core/session.py,
the image utilities of src/segtool/core/image_utils.py, the session-state
operations of src/segtool/ui/main_window.py, and the box-gesture geometry
of src/segtool/ui/image_canvas.py.

Arrays are modelled as total index functions (Nat-indexed), with shapes
carried as explicit parameters; all statements quantify only over in-range
indices.  The numpy primitives rot90, transpose, flipud, fliplr and clip
are modelled pointwise.  Mask voxel values (uint8) are Nat taken mod 256
exactly where the source casts with np.uint8.
-/

namespace Segtool

/-- ViewOrientation enum from nifti_io.py: axial, coronal, sagittal. -/
inductive ViewOrientation where
  | axial
  | coronal
  | sagittal
deriving DecidableEq, Repr

/-- Model of a 2D array: a total function from (row, column) indices. -/
def Grid (α : Type) : Type := Nat → Nat → α

/-- Model of a 3D array: a total function from (i, j, k) voxel indices. -/
def Vol (α : Type) : Type := Nat → Nat → Nat → α

/-- Model of np.rot90 with k = -1 (a clockwise quarter turn) applied to a
2D array with r rows: the result at (i, j) is the input at (r-1-j, i). -/
def rot90_cw {α : Type} (r : Nat) (g : Grid α) : Grid α :=
  fun i j => g (r - 1 - j) i

/-- Model of np.rot90 with k = 1 (a counter-clockwise quarter turn) applied
to a 2D array with c columns: the result at (i, j) is the input at (j, c-1-i). -/
def rot90_ccw {α : Type} (c : Nat) (g : Grid α) : Grid α :=
  fun i j => g j (c - 1 - i)

/-- Model of np.flipud on a 2D array with r rows. -/
def flipud {α : Type} (r : Nat) (g : Grid α) : Grid α :=
  fun i j => g (r - 1 - i) j

/-- Model of np.fliplr on a 2D array with c columns. -/
def fliplr {α : Type} (c : Nat) (g : Grid α) : Grid α :=
  fun i j => g i (c - 1 - j)

/-- Model of numpy 2D transpose (the .T attribute). -/
def transposeG {α : Type} (g : Grid α) : Grid α :=
  fun i j => g j i

/-- Model of int(np.clip(idx, 0, n-1)) for a non-negative Python index idx.
Negative indices never arise from the slider / valid-index claims. -/
def clipIdx (idx n : Nat) : Nat := min idx (n - 1)

/-- NiftiVolume.get_slice from nifti_io.py, 3D branch, for a volume of
shape (H, W, Z).  Axial takes the plane data[:, :, idx] and rotates it
clockwise; coronal takes data[:, idx, :], transposes and flips vertically;
sagittal takes data[idx, :, :], transposes, flips vertically then
horizontally.  The 2D branch of the source returns the array unchanged and
is not needed by the 3D-volume claims. -/
def get_slice {α : Type} (H W Z : Nat) (data : Vol α) (idx : Nat) :
    ViewOrientation → Grid α
  | .axial => rot90_cw H (fun i j => data i j (clipIdx idx Z))
  | .coronal => flipud Z (transposeG (fun i j => data i (clipIdx idx W) j))
  | .sagittal =>
      fliplr W (flipud Z (transposeG (fun i j => data (clipIdx idx H) i j)))

/-- Shape of the 2D array produced by each numpy operation used in
get_slice, as (rows, columns): a quarter turn and a transpose swap the two
extents, the flips keep them. -/
def rot90_shape (s : Nat × Nat) : Nat × Nat := (s.2, s.1)

/-- Shape of numpy 2D transpose: the two extents swap. -/
def transpose_shape (s : Nat × Nat) : Nat × Nat := (s.2, s.1)

/-- Shape of np.flipud: unchanged. -/
def flipud_shape (s : Nat × Nat) : Nat × Nat := s

/-- Shape of np.fliplr: unchanged. -/
def fliplr_shape (s : Nat × Nat) : Nat × Nat := s

/-- Shape of the array actually returned by NiftiVolume.get_slice (3D
branch) for a volume of shape (H, W, Z), obtained by tracking the shape of
the source plane through the exact numpy operations get_slice performs:
axial starts from the (H, W) plane and rotates; coronal starts from the
(H, Z) plane, transposes, flips vertically; sagittal starts from the
(W, Z) plane, transposes, flips vertically then horizontally. -/
def get_slice_result_shape (H W Z : Nat) : ViewOrientation → Nat × Nat
  | .axial => rot90_shape (H, W)
  | .coronal => flipud_shape (transpose_shape (H, Z))
  | .sagittal => fliplr_shape (flipud_shape (transpose_shape (W, Z)))

/-- NiftiVolume.get_slice_shape from nifti_io.py, 3D branch, for a volume
of shape (H, W, Z).  Axial reports (W, H); coronal sets h = Z, w = H and
reports (max h w, min h w) when h < w, else (h, w); sagittal does the same
with h = Z, w = W. -/
def get_slice_shape (H W Z : Nat) : ViewOrientation → Nat × Nat
  | .axial => (W, H)
  | .coronal =>
      let h := Z
      let w := H
      if h < w then (max h w, min h w) else (h, w)
  | .sagittal =>
      let h := Z
      let w := W
      if h < w then (max h w, min h w) else (h, w)

/-- Shape of a loaded array: 2D with extents (s0, s1), or 3D with extents
(s0, s1, s2), mirroring data.ndim / data.shape of the numpy array. -/
inductive NShape where
  | d2 (s0 s1 : Nat)
  | d3 (s0 s1 s2 : Nat)
deriving DecidableEq, Repr

/-- NiftiVolume.num_slices from nifti_io.py: 1 for a 2D array; for a 3D
array the axis-2 extent for axial, axis-1 for coronal, axis-0 for
sagittal. -/
def num_slices : NShape → ViewOrientation → Nat
  | .d2 _ _, _ => 1
  | .d3 _ _ s2, .axial => s2
  | .d3 _ s1 _, .coronal => s1
  | .d3 s0 _ _, .sagittal => s0

/-- ImageState.get_mask_slice from session.py, 3D branch, for a mask
volume of shape (H, W, Z).  The transforms are written exactly as in the
source (which repeats the ones of get_slice): axial rotates the
(H, W) plane clockwise; coronal transposes the (H, Z) plane and flips
vertically; sagittal transposes the (W, Z) plane, flips vertically then
horizontally. -/
def get_mask_slice (H W Z : Nat) (mask : Vol Nat) (idx : Nat) :
    ViewOrientation → Grid Nat
  | .axial => rot90_cw H (fun i j => mask i j (clipIdx idx Z))
  | .coronal => flipud Z (transposeG (fun i j => mask i (clipIdx idx W) j))
  | .sagittal =>
      fliplr W (flipud Z (transposeG (fun i j => mask (clipIdx idx H) i j)))

/-- ImageState.apply_slice_mask from session.py, 3D branch, for a mask
volume of shape (H, W, Z): the display-space boolean mask m is
inverse-transformed (axial: np.rot90 with k = 1; coronal: np.flipud then
transpose; sagittal: np.fliplr, np.flipud, then transpose) and
np.uint8(label_value) is written into the addressed plane wherever the
inverse-transformed mask is true; every other voxel keeps its value. -/
def apply_slice_mask (H W Z : Nat) (mask : Vol Nat) (idx : Nat)
    (m : Grid Bool) (v : Nat) : ViewOrientation → Vol Nat
  | .axial =>
      fun a b c =>
        if c = clipIdx idx Z ∧ rot90_ccw H m a b = true then v % 256
        else mask a b c
  | .coronal =>
      fun a b c =>
        if b = clipIdx idx W ∧ transposeG (flipud Z m) a c = true then v % 256
        else mask a b c
  | .sagittal =>
      fun a b c =>
        if a = clipIdx idx H ∧ transposeG (flipud Z (fliplr W m)) b c = true then
          v % 256
        else mask a b c

/-- All-zero mask volume (np.zeros of the volume shape, uint8). -/
def zeroVol : Vol Nat := fun _ _ _ => 0

/-- Voxel coordinate along the slicing axis of an orientation: axis 2 for
axial, axis 1 for coronal, axis 0 for sagittal (the axes addressed by
apply_slice_mask and num_slices). -/
def slice_axis_coord (o : ViewOrientation) (a b c : Nat) : Nat :=
  match o with
  | .axial => c
  | .coronal => b
  | .sagittal => a

lemma clipIdx_eq_of_lt {idx n : Nat} (h : idx < n) : clipIdx idx n = idx := by
  unfold clipIdx
  omega

lemma extract_apply_eq_axial (H W Z : Nat) (M : Vol Nat) (idx : Nat)
    (m : Grid Bool) (v : Nat) (i j : Nat) (hj : j < H) :
    get_mask_slice H W Z (apply_slice_mask H W Z M idx m v .axial) idx .axial i j
      = if m i j = true then v % 256
        else get_mask_slice H W Z M idx .axial i j := by
  have hjj : H - 1 - (H - 1 - j) = j := by omega
  simp only [get_mask_slice, apply_slice_mask, rot90_cw, rot90_ccw]
  rw [hjj]
  by_cases hm : m i j = true
  · simp [hm]
  · simp [hm]

lemma extract_apply_eq_coronal (H W Z : Nat) (M : Vol Nat) (idx : Nat)
    (m : Grid Bool) (v : Nat) (i j : Nat) (hi : i < Z) :
    get_mask_slice H W Z (apply_slice_mask H W Z M idx m v .coronal) idx .coronal i j
      = if m i j = true then v % 256
        else get_mask_slice H W Z M idx .coronal i j := by
  have hii : Z - 1 - (Z - 1 - i) = i := by omega
  simp only [get_mask_slice, apply_slice_mask, flipud, transposeG]
  rw [hii]
  by_cases hm : m i j = true
  · simp [hm]
  · simp [hm]

lemma extract_apply_eq_sagittal (H W Z : Nat) (M : Vol Nat) (idx : Nat)
    (m : Grid Bool) (v : Nat) (i j : Nat) (hi : i < Z) (hj : j < W) :
    get_mask_slice H W Z (apply_slice_mask H W Z M idx m v .sagittal) idx .sagittal i j
      = if m i j = true then v % 256
        else get_mask_slice H W Z M idx .sagittal i j := by
  have hii : Z - 1 - (Z - 1 - i) = i := by omega
  have hjj : W - 1 - (W - 1 - j) = j := by omega
  simp only [get_mask_slice, apply_slice_mask, flipud, fliplr, transposeG]
  rw [hii, hjj]
  by_cases hm : m i j = true
  · simp [hm]
  · simp [hm]

/-- C1: for every 3D mask shape, every orientation, every valid slice
index, every boolean display mask m (quantified over the display extent of
the orientation, which is the shape get_slice and get_mask_slice actually
produce), and every uint8 label value v with 0 < v < 256, writing m into
an all-zero mask volume with apply_slice_mask and extracting the same
plane with get_mask_slice yields v exactly at the true positions of m and
0 elsewhere: the forward and inverse orientation transforms are mutual
inverses on the selected region. -/
theorem C1_scatter_extract_roundtrip (H W Z : Nat) (o : ViewOrientation)
    (idx : Nat) (m : Grid Bool) (v : Nat)
    (hidx : idx < num_slices (.d3 H W Z) o) (hv : 0 < v) (hv8 : v < 256)
    (i j : Nat) (hi : i < (get_slice_result_shape H W Z o).1)
    (hj : j < (get_slice_result_shape H W Z o).2) :
    get_mask_slice H W Z (apply_slice_mask H W Z zeroVol idx m v o) idx o i j
      = if m i j = true then v else 0 := by
  have hv' : v % 256 = v := Nat.mod_eq_of_lt hv8
  cases o with
  | axial =>
      have h := extract_apply_eq_axial H W Z zeroVol idx m v i j
        (by simpa [get_slice_result_shape, rot90_shape] using hj)
      rw [h, hv']
      by_cases hm : m i j = true <;> simp [hm, get_mask_slice, rot90_cw, zeroVol]
  | coronal =>
      have h := extract_apply_eq_coronal H W Z zeroVol idx m v i j
        (by simpa [get_slice_result_shape, transpose_shape, flipud_shape] using hi)
      rw [h, hv']
      by_cases hm : m i j = true <;>
        simp [hm, get_mask_slice, flipud, transposeG, zeroVol]
  | sagittal =>
      have h := extract_apply_eq_sagittal H W Z zeroVol idx m v i j
        (by simpa [get_slice_result_shape, transpose_shape, flipud_shape,
              fliplr_shape] using hi)
        (by simpa [get_slice_result_shape, transpose_shape, flipud_shape,
              fliplr_shape] using hj)
      rw [h, hv']
      by_cases hm : m i j = true <;>
        simp [hm, get_mask_slice, flipud, fliplr, transposeG, zeroVol]

/-- Witness for C1 at a concrete instance: shape (2,2,3), axial, index 2,
label 7, a display mask true exactly at (0,1). -/
theorem C1_scatter_extract_roundtrip_witness :
    get_mask_slice 2 2 3
        (apply_slice_mask 2 2 3 zeroVol 2
          (fun i j => decide (i = 0 ∧ j = 1)) 7 .axial) 2 .axial 0 1
      = if (fun i j => decide (i = 0 ∧ j = 1)) 0 1 = true then 7 else 0 :=
  C1_scatter_extract_roundtrip 2 2 3 .axial 2
    (fun i j => decide (i = 0 ∧ j = 1)) 7
    (by decide) (by decide) (by decide) 0 1 (by decide) (by decide)

/-- C3: apply_slice_mask is a frame-preserving scatter.  For every mask
volume M, valid index, orientation, uint8 label value v and boolean
display mask m: (1) every voxel outside the addressed plane is unchanged;
(2) on the addressed plane, positions whose display coordinates are false
in m keep their previous value (no zeroing of prior labels); (3) positions
whose display coordinates are true in m are set to v. -/
theorem C3_scatter_frame (H W Z : Nat) (o : ViewOrientation) (idx : Nat)
    (M : Vol Nat) (m : Grid Bool) (v : Nat)
    (hidx : idx < num_slices (.d3 H W Z) o) (hv8 : v < 256) :
    (∀ a b c : Nat, slice_axis_coord o a b c ≠ idx →
        apply_slice_mask H W Z M idx m v o a b c = M a b c)
    ∧ (∀ i j : Nat, i < (get_slice_result_shape H W Z o).1 →
        j < (get_slice_result_shape H W Z o).2 → m i j = false →
        get_mask_slice H W Z (apply_slice_mask H W Z M idx m v o) idx o i j
          = get_mask_slice H W Z M idx o i j)
    ∧ (∀ i j : Nat, i < (get_slice_result_shape H W Z o).1 →
        j < (get_slice_result_shape H W Z o).2 → m i j = true →
        get_mask_slice H W Z (apply_slice_mask H W Z M idx m v o) idx o i j
          = v) := by
  have hv' : v % 256 = v := Nat.mod_eq_of_lt hv8
  cases o with
  | axial =>
      have hclip : clipIdx idx Z = idx := clipIdx_eq_of_lt hidx
      refine ⟨?_, ?_, ?_⟩
      · intro a b c hc
        simp only [slice_axis_coord] at hc
        simp [apply_slice_mask, hclip, hc]
      · intro i j hi hj hm
        have h := extract_apply_eq_axial H W Z M idx m v i j
          (by simpa [get_slice_result_shape, rot90_shape] using hj)
        simp [h, hm]
      · intro i j hi hj hm
        have h := extract_apply_eq_axial H W Z M idx m v i j
          (by simpa [get_slice_result_shape, rot90_shape] using hj)
        simp [h, hm, hv']
  | coronal =>
      have hclip : clipIdx idx W = idx := clipIdx_eq_of_lt hidx
      refine ⟨?_, ?_, ?_⟩
      · intro a b c hb
        simp only [slice_axis_coord] at hb
        simp [apply_slice_mask, hclip, hb]
      · intro i j hi hj hm
        have h := extract_apply_eq_coronal H W Z M idx m v i j
          (by simpa [get_slice_result_shape, transpose_shape, flipud_shape] using hi)
        simp [h, hm]
      · intro i j hi hj hm
        have h := extract_apply_eq_coronal H W Z M idx m v i j
          (by simpa [get_slice_result_shape, transpose_shape, flipud_shape] using hi)
        simp [h, hm, hv']
  | sagittal =>
      have hclip : clipIdx idx H = idx := clipIdx_eq_of_lt hidx
      refine ⟨?_, ?_, ?_⟩
      · intro a b c ha
        simp only [slice_axis_coord] at ha
        simp [apply_slice_mask, hclip, ha]
      · intro i j hi hj hm
        have h := extract_apply_eq_sagittal H W Z M idx m v i j
          (by simpa [get_slice_result_shape, transpose_shape, flipud_shape,
                fliplr_shape] using hi)
          (by simpa [get_slice_result_shape, transpose_shape, flipud_shape,
                fliplr_shape] using hj)
        simp [h, hm]
      · intro i j hi hj hm
        have h := extract_apply_eq_sagittal H W Z M idx m v i j
          (by simpa [get_slice_result_shape, transpose_shape, flipud_shape,
                fliplr_shape] using hi)
          (by simpa [get_slice_result_shape, transpose_shape, flipud_shape,
                fliplr_shape] using hj)
        simp [h, hm, hv']

/-- Witness for C3 at a concrete instance: a nonzero mask volume, coronal
orientation, index 1 of extent 2, label 9; checks an off-plane voxel is
unchanged, a false display position keeps its old extracted value, and a
true display position reads 9. -/
theorem C3_scatter_frame_witness :
    (apply_slice_mask 2 2 2 (fun a b c => a + b + c) 1
        (fun i j => decide (i = 1 ∧ j = 0)) 9 .coronal 1 0 1
      = (fun a b c : Nat => a + b + c) 1 0 1)
    ∧ (get_mask_slice 2 2 2
        (apply_slice_mask 2 2 2 (fun a b c => a + b + c) 1
          (fun i j => decide (i = 1 ∧ j = 0)) 9 .coronal) 1 .coronal 0 0
      = get_mask_slice 2 2 2 (fun a b c => a + b + c) 1 .coronal 0 0)
    ∧ (get_mask_slice 2 2 2
        (apply_slice_mask 2 2 2 (fun a b c => a + b + c) 1
          (fun i j => decide (i = 1 ∧ j = 0)) 9 .coronal) 1 .coronal 1 0
      = 9) :=
  ⟨(C3_scatter_frame 2 2 2 .coronal 1 (fun a b c => a + b + c)
      (fun i j => decide (i = 1 ∧ j = 0)) 9 (by decide) (by decide)).1
      1 0 1 (by decide),
   (C3_scatter_frame 2 2 2 .coronal 1 (fun a b c => a + b + c)
      (fun i j => decide (i = 1 ∧ j = 0)) 9 (by decide) (by decide)).2.1
      0 0 (by decide) (by decide) (by decide),
   (C3_scatter_frame 2 2 2 .coronal 1 (fun a b c => a + b + c)
      (fun i j => decide (i = 1 ∧ j = 0)) 9 (by decide) (by decide)).2.2
      1 0 (by decide) (by decide) (by decide)⟩

/-- C2 fails on the code: at volume shape (H,W,Z) = (4,3,2) and coronal
orientation, get_slice_shape reports (4,2) (it swaps to (max, min) when
Z < H), while the array returned by get_slice has shape (2,4) (transpose
of the (H,Z) plane followed by a vertical flip, which never reorders the
extents).  The docstring of get_slice_shape promises the shape of the
slice, so the two functions contradict each other. -/
theorem C2_shape_mismatch_at_4_3_2 :
    get_slice_shape 4 3 2 .coronal = (4, 2)
    ∧ get_slice_result_shape 4 3 2 .coronal = (2, 4)
    ∧ get_slice_shape 4 3 2 .coronal ≠ get_slice_result_shape 4 3 2 .coronal := by
  refine ⟨rfl, rfl, ?_⟩
  decide

/-- C4: num_slices returns the axis-2 extent for axial, axis-1 for
coronal, axis-0 for sagittal on a 3D volume, returns 1 for a 2D volume
regardless of orientation, and on a (100,80,50) volume yields 50 / 80 /
100 for axial / coronal / sagittal. -/
theorem C4_num_slices_spec :
    (∀ s0 s1 s2 : Nat,
        num_slices (.d3 s0 s1 s2) .axial = s2
        ∧ num_slices (.d3 s0 s1 s2) .coronal = s1
        ∧ num_slices (.d3 s0 s1 s2) .sagittal = s0)
    ∧ (∀ (s0 s1 : Nat) (o : ViewOrientation), num_slices (.d2 s0 s1) o = 1)
    ∧ num_slices (.d3 100 80 50) .axial = 50
    ∧ num_slices (.d3 100 80 50) .coronal = 80
    ∧ num_slices (.d3 100 80 50) .sagittal = 100 := by
  refine ⟨fun s0 s1 s2 => ⟨rfl, rfl, rfl⟩, fun s0 s1 o => ?_, rfl, rfl, rfl⟩
  cases o <;> rfl

/-! Model of image_utils.normalize_to_uint8.  Float values are modelled
exactly: a finite rational, NaN, or a signed infinity, with IEEE-style
propagation in the arithmetic the normalizer performs.  Rationals stand in
for float32/float64; none of the properties proved depend on rounding. -/

/-- Value of one float cell: finite rational, NaN, or signed infinity. -/
inductive FVal where
  | fin (q : ℚ)
  | nan
  | pinf
  | ninf
deriving DecidableEq, Repr

/-- Model of np.isfinite on one value. -/
def isfinite : FVal → Bool
  | .fin _ => true
  | _ => false

/-- Test for NaN (np.nanpercentile, np.nanmin, np.nanmax drop NaNs). -/
def isNan : FVal → Bool
  | .nan => true
  | _ => false

/-- IEEE comparison a <= b as numpy evaluates it: false whenever either
side is NaN. -/
def fle : FVal → FVal → Bool
  | .nan, _ => false
  | _, .nan => false
  | .ninf, _ => true
  | .fin _, .ninf => false
  | .pinf, .ninf => false
  | .fin a, .fin b => decide (a ≤ b)
  | .fin _, .pinf => true
  | .pinf, .pinf => true
  | .pinf, .fin _ => false

/-- IEEE addition on the modelled values. -/
def fadd : FVal → FVal → FVal
  | .nan, _ => .nan
  | _, .nan => .nan
  | .pinf, .ninf => .nan
  | .ninf, .pinf => .nan
  | .pinf, _ => .pinf
  | _, .pinf => .pinf
  | .ninf, _ => .ninf
  | _, .ninf => .ninf
  | .fin a, .fin b => .fin (a + b)

/-- IEEE subtraction on the modelled values. -/
def fsub : FVal → FVal → FVal
  | .nan, _ => .nan
  | _, .nan => .nan
  | .pinf, .pinf => .nan
  | .ninf, .ninf => .nan
  | .pinf, _ => .pinf
  | .ninf, _ => .ninf
  | .fin _, .pinf => .ninf
  | .fin _, .ninf => .pinf
  | .fin a, .fin b => .fin (a - b)

/-- IEEE division on the modelled values (sign of zero is not modelled;
the division the normalizer performs always has a positive finite
denominator). -/
def fdiv : FVal → FVal → FVal
  | .nan, _ => .nan
  | _, .nan => .nan
  | .pinf, .pinf => .nan
  | .pinf, .ninf => .nan
  | .ninf, .pinf => .nan
  | .ninf, .ninf => .nan
  | .pinf, .fin b => if b < 0 then .ninf else .pinf
  | .ninf, .fin b => if b < 0 then .pinf else .ninf
  | .fin _, .pinf => .fin 0
  | .fin _, .ninf => .fin 0
  | .fin a, .fin b =>
      if b = 0 then (if a = 0 then .nan else if 0 < a then .pinf else .ninf)
      else .fin (a / b)

/-- Multiplication by a finite rational scalar (the interpolation weight
of nanpercentile and the final factor 255.0). -/
def fscale (t : ℚ) : FVal → FVal
  | .fin q => .fin (t * q)
  | .nan => .nan
  | .pinf => if 0 < t then .pinf else if t < 0 then .ninf else .nan
  | .ninf => if 0 < t then .ninf else if t < 0 then .pinf else .nan

/-- Model of np.clip(x, 0.0, 1.0): minimum(maximum(x, 0), 1), NaN
propagating. -/
def fclip01 : FVal → FVal
  | .fin q => .fin (min (max q 0) 1)
  | .nan => .nan
  | .pinf => .fin 1
  | .ninf => .fin 0

/-- Model of .astype(np.uint8) on the clipped-and-scaled value: truncation
for a finite value (always in [0, 255] where the normalizer applies it);
the NaN cast yields 0 on the targeted platforms; the infinite cases are
unreachable after clipping. -/
def castU8 : FVal → Nat
  | .fin q => (⌊q⌋).toNat
  | .nan => 0
  | .pinf => 255
  | .ninf => 0

/-- Values that survive the NaN-dropping of the nan-aware reductions. -/
def dropNan (l : List FVal) : List FVal := l.filter fun x => !isNan x

/-- Insertion step of the sort underlying the percentile computation. -/
def finsert (x : FVal) : List FVal → List FVal
  | [] => [x]
  | y :: ys => if fle x y then x :: y :: ys else y :: finsert x ys

/-- Insertion sort by the IEEE order (numpy sorts the kept values before
interpolating; on NaN-free data any comparison sort agrees). -/
def fsortL : List FVal → List FVal
  | [] => []
  | x :: xs => finsert x (fsortL xs)

/-- Model of np.nanpercentile(l, p) with the default linear interpolation:
drop NaNs, sort, take the virtual index p/100*(n-1), and interpolate
between the two bracketing order statistics; NaN on an empty result. -/
def nanpercentile (l : List FVal) (p : ℚ) : FVal :=
  match fsortL (dropNan l) with
  | [] => .nan
  | x :: xs =>
      let fs := x :: xs
      let n := fs.length
      let pos : ℚ := p / 100 * ((n : ℚ) - 1)
      let i : Nat := (⌊pos⌋).toNat
      let frac : ℚ := pos - (i : ℚ)
      let lo := fs.getD i .nan
      let hi := fs.getD (min (i + 1) (n - 1)) .nan
      fadd lo (fscale frac (fsub hi lo))

/-- Binary minimum over non-NaN values (step of np.nanmin). -/
def fminOp (a b : FVal) : FVal := if fle b a then b else a

/-- Binary maximum over non-NaN values (step of np.nanmax). -/
def fmaxOp (a b : FVal) : FVal := if fle a b then b else a

/-- Model of np.nanmin: minimum of the non-NaN values, NaN if none. -/
def nanminL (l : List FVal) : FVal :=
  match dropNan l with
  | [] => .nan
  | x :: xs => xs.foldl fminOp x

/-- Model of np.nanmax: maximum of the non-NaN values, NaN if none. -/
def nanmaxL (l : List FVal) : FVal :=
  match dropNan l with
  | [] => .nan
  | x :: xs => xs.foldl fmaxOp x

/-- Row-major flattening of a 2D array of shape (R, C), the value list the
reductions of normalize_to_uint8 range over. -/
def flatten (R C : Nat) (g : Grid FVal) : List FVal :=
  (List.range R).flatMap fun i => (List.range C).map fun j => g i j

/-- normalize_to_uint8 from image_utils.py on a 2D array of shape (R, C):
all zeros when no value is finite; vmin/vmax from the 1st and 99th
nanpercentile, falling back to nanmin/nanmax when vmax <= vmin, and all
zeros when even those satisfy vmax <= vmin; otherwise (x - vmin) /
(vmax - vmin), clipped to [0, 1], scaled by 255 and truncated to uint8.
The output shape is (R, C), the input shape, by construction. -/
def normalize_to_uint8 (R C : Nat) (g : Grid FVal) : Grid Nat :=
  let l := flatten R C g
  if l.any isfinite = false then fun _ _ => 0
  else
    let vmin1 := nanpercentile l 1
    let vmax1 := nanpercentile l 99
    if fle vmax1 vmin1 = true then
      let vmin2 := nanminL l
      let vmax2 := nanmaxL l
      if fle vmax2 vmin2 = true then fun _ _ => 0
      else fun i j =>
        castU8 (fscale 255 (fclip01 (fdiv (fsub (g i j) vmin2) (fsub vmax2 vmin2))))
    else fun i j =>
      castU8 (fscale 255 (fclip01 (fdiv (fsub (g i j) vmin1) (fsub vmax1 vmin1))))

lemma mem_flatten {R C : Nat} {g : Grid FVal} {x : FVal} :
    x ∈ flatten R C g ↔ ∃ i, i < R ∧ ∃ j, j < C ∧ g i j = x := by
  simp [flatten, List.mem_flatMap, List.mem_map, List.mem_range]

lemma castU8_pipeline_le (x : FVal) : castU8 (fscale 255 (fclip01 x)) ≤ 255 := by
  cases x with
  | fin q =>
      simp only [fclip01, fscale, castU8]
      have h2 : (255 : ℚ) * min (max q 0) 1 ≤ 255 := by
        have h1 : min (max q 0) 1 ≤ 1 := min_le_right _ _
        nlinarith
      have h3 : ⌊(255 : ℚ) * min (max q 0) 1⌋ ≤ (255 : ℤ) := by
        have h4 := Int.floor_le_floor h2
        simpa using h4
      exact Int.toNat_le.mpr h3
  | nan => simp [fclip01, fscale, castU8]
  | pinf =>
      simp only [fclip01, fscale, castU8]
      norm_num
  | ninf =>
      simp only [fclip01, fscale, castU8]
      norm_num

lemma normalize_le (R C : Nat) (g : Grid FVal) (i j : Nat) :
    normalize_to_uint8 R C g i j ≤ 255 := by
  by_cases h1 : (flatten R C g).any isfinite = false
  · simp [normalize_to_uint8, h1]
  · by_cases h2 : fle (nanpercentile (flatten R C g) 99)
        (nanpercentile (flatten R C g) 1) = true
    · by_cases h3 : fle (nanmaxL (flatten R C g)) (nanminL (flatten R C g)) = true
      · simp [normalize_to_uint8, h1, h2, h3]
      · simp only [normalize_to_uint8, h1, h2, h3, if_false, if_true]
        exact castU8_pipeline_le _
    · simp only [normalize_to_uint8, h1, h2, if_false, if_true]
      exact castU8_pipeline_le _

lemma any_isfinite_false {R C : Nat} {g : Grid FVal}
    (h : ∀ i j, i < R → j < C → isfinite (g i j) = false) :
    (flatten R C g).any isfinite = false := by
  rw [List.any_eq_false]
  intro x hx
  rcases mem_flatten.mp hx with ⟨i, hi, j, hj, hxe⟩
  rw [← hxe]
  simp [h i j hi hj]

lemma flatten_length (R C : Nat) (g : Grid FVal) :
    (flatten R C g).length = R * C := by
  simp [flatten, Function.comp_def, List.map_const', List.sum_replicate,
    smul_eq_mul, Nat.mul_comm]

lemma dropNan_const {q : ℚ} {l : List FVal}
    (hall : ∀ x ∈ l, x = FVal.fin q) : dropNan l = l := by
  apply List.filter_eq_self.mpr
  intro x hx
  rw [hall x hx]
  rfl

lemma finsert_const {q : ℚ} {l : List FVal}
    (hall : ∀ x ∈ l, x = FVal.fin q) : finsert (.fin q) l = .fin q :: l := by
  cases l with
  | nil => rfl
  | cons y ys =>
      have hy : y = FVal.fin q := hall y (by simp)
      subst hy
      simp [finsert, fle]

lemma fsortL_const {q : ℚ} : ∀ {l : List FVal},
    (∀ x ∈ l, x = FVal.fin q) → fsortL l = l := by
  intro l
  induction l with
  | nil => intro _; rfl
  | cons y ys ih =>
      intro hall
      have hy : y = FVal.fin q := hall y (by simp)
      have hys : ∀ x ∈ ys, x = FVal.fin q := fun x hx => hall x (by simp [hx])
      subst hy
      simp only [fsortL, ih hys]
      exact finsert_const hys

lemma getD_const {q : ℚ} {l : List FVal} (hall : ∀ x ∈ l, x = FVal.fin q)
    {i : Nat} (hi : i < l.length) (d : FVal) : l.getD i d = FVal.fin q := by
  rw [List.getD_eq_getElem l d hi]
  exact hall _ (List.getElem_mem hi)

lemma foldl_fminOp_const {q : ℚ} : ∀ (xs : List FVal),
    (∀ x ∈ xs, x = FVal.fin q) → xs.foldl fminOp (.fin q) = .fin q := by
  intro xs
  induction xs with
  | nil => intro _; rfl
  | cons y ys ih =>
      intro hall
      have hy : y = FVal.fin q := hall y (by simp)
      have hys : ∀ x ∈ ys, x = FVal.fin q := fun x hx => hall x (by simp [hx])
      subst hy
      have hstep : fminOp (.fin q) (.fin q) = FVal.fin q := by
        simp [fminOp]
      simp only [List.foldl_cons, hstep]
      exact ih hys

lemma foldl_fmaxOp_const {q : ℚ} : ∀ (xs : List FVal),
    (∀ x ∈ xs, x = FVal.fin q) → xs.foldl fmaxOp (.fin q) = .fin q := by
  intro xs
  induction xs with
  | nil => intro _; rfl
  | cons y ys ih =>
      intro hall
      have hy : y = FVal.fin q := hall y (by simp)
      have hys : ∀ x ∈ ys, x = FVal.fin q := fun x hx => hall x (by simp [hx])
      subst hy
      have hstep : fmaxOp (.fin q) (.fin q) = FVal.fin q := by
        simp [fmaxOp]
      simp only [List.foldl_cons, hstep]
      exact ih hys

lemma nanpercentile_const (q p : ℚ) (l : List FVal) (hne : l ≠ [])
    (hall : ∀ x ∈ l, x = FVal.fin q) (hp0 : 0 ≤ p) (hp1 : p ≤ 100) :
    nanpercentile l p = .fin q := by
  have hs : fsortL (dropNan l) = l := by
    rw [dropNan_const hall]
    exact fsortL_const hall
  unfold nanpercentile
  rw [hs]
  cases l with
  | nil => exact absurd rfl hne
  | cons x xs =>
      have hx : x = FVal.fin q := hall x (by simp)
      dsimp only
      have hn1 : (1 : ℚ) ≤ ((x :: xs).length : ℚ) := by
        have : 1 ≤ (x :: xs).length := Nat.succ_le_succ (Nat.zero_le _)
        exact_mod_cast this
      have hpos0 : 0 ≤ p / 100 * (((x :: xs).length : ℚ) - 1) := by
        apply mul_nonneg
        · positivity
        · linarith
      have hposle : p / 100 * (((x :: xs).length : ℚ) - 1)
          ≤ ((x :: xs).length : ℚ) - 1 := by
        have h100 : p / 100 ≤ 1 := by
          rw [div_le_one (by norm_num : (0:ℚ) < 100)]
          exact hp1
        nlinarith
      have hfloor : ⌊p / 100 * (((x :: xs).length : ℚ) - 1)⌋
          ≤ ((x :: xs).length : ℤ) - 1 := by
        have h4 := Int.floor_le_floor hposle
        have h6 : ⌊(((x :: xs).length : ℚ) - 1)⌋
            = ((x :: xs).length : ℤ) - 1 := by
          have h5 : (((x :: xs).length : ℚ) - 1)
              = ((((x :: xs).length : ℤ) - 1 : ℤ) : ℚ) := by push_cast; ring
          rw [h5, Int.floor_intCast]
        rw [h6] at h4
        exact h4
      have hlen : 1 ≤ (x :: xs).length := Nat.succ_le_succ (Nat.zero_le _)
      have hi_lt : (⌊p / 100 * (((x :: xs).length : ℚ) - 1)⌋).toNat
          < (x :: xs).length := by omega
      have hi2_lt : min ((⌊p / 100 * (((x :: xs).length : ℚ) - 1)⌋).toNat + 1)
          ((x :: xs).length - 1) < (x :: xs).length := by omega
      rw [getD_const hall hi_lt, getD_const hall hi2_lt]
      simp [fsub, fscale, fadd]

lemma normalize_const (R C : Nat) (c : FVal) (g : Grid FVal)
    (hg : ∀ i j, i < R → j < C → g i j = c) (i j : Nat) :
    normalize_to_uint8 R C g i j = 0 := by
  cases hfin : isfinite c with
  | false =>
      have h1 : (flatten R C g).any isfinite = false :=
        any_isfinite_false (fun a b ha hb => by rw [hg a b ha hb]; exact hfin)
      simp [normalize_to_uint8, h1]
  | true =>
      obtain ⟨q, rfl⟩ : ∃ q, c = FVal.fin q := by
        cases c with
        | fin q => exact ⟨q, rfl⟩
        | nan => exact absurd hfin (by simp [isfinite])
        | pinf => exact absurd hfin (by simp [isfinite])
        | ninf => exact absurd hfin (by simp [isfinite])
      by_cases hRC : R = 0 ∨ C = 0
      · have hnil : flatten R C g = [] := by
          apply List.eq_nil_of_length_eq_zero
          rw [flatten_length]
          rcases hRC with h | h
          · rw [h, Nat.zero_mul]
          · rw [h, Nat.mul_zero]
        simp [normalize_to_uint8, hnil]
      · push_neg at hRC
        have hR : 0 < R := Nat.pos_of_ne_zero hRC.1
        have hC : 0 < C := Nat.pos_of_ne_zero hRC.2
        have hall : ∀ x ∈ flatten R C g, x = FVal.fin q := by
          intro x hx
          rcases mem_flatten.mp hx with ⟨a, ha, b, hb, hxe⟩
          rw [← hxe]
          exact hg a b ha hb
        have hne : flatten R C g ≠ [] := by
          intro hnil
          have hlen := flatten_length R C g
          rw [hnil] at hlen
          simp only [List.length_nil] at hlen
          rcases Nat.mul_eq_zero.mp hlen.symm with h | h
          · exact absurd h hRC.1
          · exact absurd h hRC.2
        have hany : (flatten R C g).any isfinite = true := by
          rw [List.any_eq_true]
          rcases List.exists_mem_of_ne_nil _ hne with ⟨x, hx⟩
          exact ⟨x, hx, by rw [hall x hx]; rfl⟩
        have hp1 : nanpercentile (flatten R C g) 1 = .fin q :=
          nanpercentile_const q 1 _ hne hall (by norm_num) (by norm_num)
        have hp99 : nanpercentile (flatten R C g) 99 = .fin q :=
          nanpercentile_const q 99 _ hne hall (by norm_num) (by norm_num)
        have hmin : nanminL (flatten R C g) = .fin q := by
          unfold nanminL
          rw [dropNan_const hall]
          cases hfl : flatten R C g with
          | nil => exact absurd hfl hne
          | cons x xs =>
              have hallx : ∀ y ∈ x :: xs, y = FVal.fin q := by
                rw [← hfl]; exact hall
              have hx : x = FVal.fin q := hallx x (by simp)
              subst hx
              exact foldl_fminOp_const xs
                (fun y hy => hallx y (by simp [hy]))
        have hmax : nanmaxL (flatten R C g) = .fin q := by
          unfold nanmaxL
          rw [dropNan_const hall]
          cases hfl : flatten R C g with
          | nil => exact absurd hfl hne
          | cons x xs =>
              have hallx : ∀ y ∈ x :: xs, y = FVal.fin q := by
                rw [← hfl]; exact hall
              have hx : x = FVal.fin q := hallx x (by simp)
              subst hx
              exact foldl_fmaxOp_const xs
                (fun y hy => hallx y (by simp [hy]))
        have hle : fle (FVal.fin q) (FVal.fin q) = true := by simp [fle]
        simp [normalize_to_uint8, hany, hp1, hp99, hmin, hmax, hle]

/-- C5: the normalizer output is a uint8 image of the input shape with
every value in [0, 255]; a constant input (any value, finite or not)
yields an all-zero output; an input with no finite value yields an
all-zero output.  The output is a grid over the same (R, C) index range by
construction. -/
theorem C5_normalize_bounds_and_degenerate :
    (∀ (R C : Nat) (g : Grid FVal) (i j : Nat), i < R → j < C →
        normalize_to_uint8 R C g i j ≤ 255)
    ∧ (∀ (R C : Nat) (c : FVal) (g : Grid FVal),
        (∀ i j, i < R → j < C → g i j = c) →
        ∀ i j, i < R → j < C → normalize_to_uint8 R C g i j = 0)
    ∧ (∀ (R C : Nat) (g : Grid FVal),
        (∀ i j, i < R → j < C → isfinite (g i j) = false) →
        ∀ i j, i < R → j < C → normalize_to_uint8 R C g i j = 0) := by
  refine ⟨fun R C g i j _ _ => normalize_le R C g i j,
    fun R C c g hg i j _ _ => normalize_const R C c g hg i j,
    fun R C g hg i j _ _ => ?_⟩
  simp [normalize_to_uint8, any_isfinite_false hg]

/-- Witness for C5 at concrete inputs: a 1-by-1 constant finite image and
a 1-by-1 all-NaN image. -/
theorem C5_normalize_bounds_and_degenerate_witness :
    normalize_to_uint8 1 1 (fun _ _ => FVal.fin 5) 0 0 ≤ 255
    ∧ normalize_to_uint8 1 1 (fun _ _ => FVal.fin 5) 0 0 = 0
    ∧ normalize_to_uint8 1 1 (fun _ _ => FVal.nan) 0 0 = 0 :=
  ⟨C5_normalize_bounds_and_degenerate.1 1 1 (fun _ _ => FVal.fin 5) 0 0
      (by decide) (by decide),
   C5_normalize_bounds_and_degenerate.2.1 1 1 (FVal.fin 5)
      (fun _ _ => FVal.fin 5) (fun _ _ _ _ => rfl) 0 0 (by decide) (by decide),
   C5_normalize_bounds_and_degenerate.2.2 1 1 (fun _ _ => FVal.nan)
      (fun _ _ _ _ => rfl) 0 0 (by decide) (by decide)⟩

/-! Model of image_utils.compose_overlay_rgb.  The base image is uint8;
the blend arithmetic runs in float32, modelled by rationals (exact for the
unselected pixels the claim is about). -/

/-- RGB triple of rational channel values (the float32 working image). -/
structure RGBq where
  r : ℚ
  g : ℚ
  b : ℚ
deriving DecidableEq, Repr

/-- One label_to_rgb entry: label value and its RGB color (uint8). -/
structure PaletteEntry where
  val : Nat
  red : Nat
  green : Nat
  blue : Nat
deriving DecidableEq, Repr

/-- The per-pixel effect of the palette loop of compose_overlay_rgb: for
each entry in iteration order, skip value 0, and where the mask value
equals the entry value blend the running pixel with the entry color at
weight alpha.  The np.any(sel) test of the source only skips labels with
no selected pixel and does not change any per-pixel value. -/
def overlay_fold (alpha : ℚ) (mval : Nat) (palette : List PaletteEntry)
    (p : RGBq) : RGBq :=
  palette.foldl
    (fun out e =>
      if e.val = 0 then out
      else if mval = e.val then
        { r := out.r * (1 - alpha) + (e.red : ℚ) * alpha,
          g := out.g * (1 - alpha) + (e.green : ℚ) * alpha,
          b := out.b * (1 - alpha) + (e.blue : ℚ) * alpha }
      else out)
    p

/-- Model of np.clip(x, 0, 255) followed by .astype(np.uint8) on one
channel. -/
def castChan (q : ℚ) : Nat := (⌊min (max q 0) 255⌋).toNat

/-- compose_overlay_rgb from image_utils.py: the grayscale base is
replicated into 3 float channels; with no mask it is cast straight back to
uint8; with a mask each palette label is alpha-blended where the mask
equals it, then the result is clipped to [0, 255] and cast to uint8. -/
def compose_overlay_rgb (base : Grid Nat) (maskOpt : Option (Grid Nat))
    (palette : List PaletteEntry) (alpha : ℚ) : Grid (Nat × Nat × Nat) :=
  match maskOpt with
  | none => fun i j =>
      ((⌊(base i j : ℚ)⌋).toNat, (⌊(base i j : ℚ)⌋).toNat,
        (⌊(base i j : ℚ)⌋).toNat)
  | some m => fun i j =>
      let p := overlay_fold alpha (m i j) palette
        { r := (base i j : ℚ), g := (base i j : ℚ), b := (base i j : ℚ) }
      (castChan p.r, castChan p.g, castChan p.b)

lemma overlay_fold_not_selected (alpha : ℚ) (mval : Nat) (p : RGBq) :
    ∀ palette : List PaletteEntry,
    (mval = 0 ∨ ∀ e ∈ palette, e.val ≠ mval) →
    overlay_fold alpha mval palette p = p := by
  intro palette
  induction palette with
  | nil => intro _; rfl
  | cons e es ih =>
      intro h
      have htail : mval = 0 ∨ ∀ x ∈ es, x.val ≠ mval := by
        rcases h with h0 | hall
        · exact Or.inl h0
        · exact Or.inr fun x hx => hall x (by simp [hx])
      by_cases hz : e.val = 0
      · simpa [overlay_fold, hz] using ih htail
      · have hne : ¬mval = e.val := by
          rcases h with h0 | hall
          · intro hc
            exact hz (by omega)
          · exact fun hc => hall e (by simp) hc.symm
        simpa [overlay_fold, hz, hne] using ih htail

lemma castChan_natCast (v : Nat) (hv : v ≤ 255) : castChan (v : ℚ) = v := by
  unfold castChan
  have h1 : max (v : ℚ) 0 = (v : ℚ) := max_eq_left (by positivity)
  have h2 : min (v : ℚ) 255 = (v : ℚ) := min_eq_left (by exact_mod_cast hv)
  rw [h1, h2, Int.floor_natCast, Int.toNat_natCast]

/-- C6: with no mask, compose_overlay_rgb returns exactly the 3-channel
replication of the base; with a mask, every pixel whose mask value is 0 or
matches no palette label value is exactly the replicated base, since the
alpha blend is applied only where the mask equals a palette label.  The
blend weight 0.4 of the claim is the value 2/5. -/
theorem C6_overlay_frame :
    (∀ (base : Grid Nat) (palette : List PaletteEntry) (i j : Nat),
        compose_overlay_rgb base none palette (2 / 5) i j
          = (base i j, base i j, base i j))
    ∧ (∀ (base : Grid Nat) (m : Grid Nat) (palette : List PaletteEntry)
        (i j : Nat), base i j ≤ 255 →
        (m i j = 0 ∨ ∀ e ∈ palette, e.val ≠ m i j) →
        compose_overlay_rgb base (some m) palette (2 / 5) i j
          = (base i j, base i j, base i j)) := by
  constructor
  · intro base palette i j
    simp [compose_overlay_rgb, Int.floor_natCast, Int.toNat_natCast]
  · intro base m palette i j hb hsel
    simp only [compose_overlay_rgb]
    rw [overlay_fold_not_selected (2 / 5) (m i j) _ palette hsel]
    simp [castChan_natCast (base i j) hb]

/-- Witness for C6 at a concrete instance: base value 100, a palette with
one label of value 1, and a mask value 0. -/
theorem C6_overlay_frame_witness :
    compose_overlay_rgb (fun _ _ => 100) none
        [{ val := 1, red := 255, green := 0, blue := 0 }] (2 / 5) 0 0
      = (100, 100, 100)
    ∧ compose_overlay_rgb (fun _ _ => 100) (some fun _ _ => 0)
        [{ val := 1, red := 255, green := 0, blue := 0 }] (2 / 5) 0 0
      = (100, 100, 100) :=
  ⟨C6_overlay_frame.1 (fun _ _ => 100)
      [{ val := 1, red := 255, green := 0, blue := 0 }] 0 0,
   C6_overlay_frame.2 (fun _ _ => 100) (fun _ _ => 0)
      [{ val := 1, red := 255, green := 0, blue := 0 }] 0 0
      (by decide) (Or.inl rfl)⟩

/-! Model of the session state and its load / record / undo operations
(session.py ImageState and main_window.py MainWindow handlers). -/

/-- Side identifier of a panel. -/
inductive Side where
  | left
  | right
deriving DecidableEq, Repr

/-- One box annotation record (dataclass BoxAnnotation of session.py). -/
structure BoxAnnot where
  side : Side
  slice_index : Nat
  orientation : ViewOrientation
  label : Nat
  color : String
  box_xyxy : Int × Int × Int × Int
deriving DecidableEq, Repr

/-- A loaded volume as produced by load_nifti: number of axes (2 or 3),
their extents, and the voxel data (trailing indices ignored for 2D). -/
structure NiftiVolumeM where
  ndim : Nat
  dims : List Nat
  data : Nat → Nat → Nat → ℚ

/-- The uint8 label-mask volume of one side. -/
structure MaskVol where
  dims : List Nat
  vals : Nat → Nat → Nat → Nat

/-- Per-side state of session.py ImageState: optional volume, optional
mask, and the ordered box-record list. -/
structure ImageState where
  side : Side
  volume : Option NiftiVolumeM
  mask : Option MaskVol
  boxes : List BoxAnnot

/-- Recording of one box by MainWindow._on_box_drawn:
st.boxes.append(record). -/
def record_box (st : ImageState) (b : BoxAnnot) : ImageState :=
  { st with boxes := st.boxes ++ [b] }

/-- Outcome reported by the undo handler. -/
inductive UndoStatus where
  | noState
  | nothingToUndo
  | removedLast
deriving DecidableEq, Repr

/-- MainWindow._undo: silently returns when no volume or mask is loaded;
reports that there is nothing to undo when the record list is empty;
otherwise pops the last box record, leaving the mask untouched. -/
def undo_last_box (st : ImageState) : ImageState × UndoStatus :=
  match st.volume, st.mask with
  | none, _ => (st, .noState)
  | some _, none => (st, .noState)
  | some _, some _ =>
      match st.boxes with
      | [] => (st, .nothingToUndo)
      | _ :: _ => ({ st with boxes := st.boxes.dropLast }, .removedLast)

/-- Sample loaded volume used by concrete witnesses. -/
def sampleVol : NiftiVolumeM :=
  { ndim := 3, dims := [2, 2, 2], data := fun _ _ _ => 0 }

/-- Sample mask volume used by concrete witnesses. -/
def sampleMask : MaskVol :=
  { dims := [2, 2, 2], vals := fun _ _ _ => 0 }

/-- Sample loaded per-side state with an empty record list. -/
def sampleState : ImageState :=
  { side := Side.left, volume := some sampleVol, mask := some sampleMask,
    boxes := [] }

/-- Sample box record. -/
def sampleBox1 : BoxAnnot :=
  { side := Side.left, slice_index := 0,
    orientation := ViewOrientation.axial, label := 1, color := "red",
    box_xyxy := (0, 0, 4, 4) }

/-- Second sample box record. -/
def sampleBox2 : BoxAnnot :=
  { side := Side.left, slice_index := 1,
    orientation := ViewOrientation.axial, label := 2, color := "green",
    box_xyxy := (1, 1, 5, 5) }

lemma undo_pop (sd : Side) (v : NiftiVolumeM) (mk : MaskVol)
    (l : List BoxAnnot) (hl : l ≠ []) :
    undo_last_box { side := sd, volume := some v, mask := some mk, boxes := l }
      = ({ side := sd, volume := some v, mask := some mk,
            boxes := l.dropLast }, UndoStatus.removedLast) := by
  cases l with
  | nil => exact absurd rfl hl
  | cons x xs => rfl

/-- C7: undo leaves the mask volume unchanged in every case; with state
loaded and a non-empty record list it removes exactly the last record and
reports success; with an empty record list it reports nothing-to-undo,
non-fatally, and changes no state; and after recording two boxes one undo
leaves exactly the first record and an unchanged mask. -/
theorem C7_undo_spec :
    (∀ st : ImageState, (undo_last_box st).1.mask = st.mask)
    ∧ (∀ st : ImageState, st.volume ≠ none → st.mask ≠ none →
        st.boxes ≠ [] →
        (undo_last_box st).1.boxes = st.boxes.dropLast
        ∧ (undo_last_box st).2 = .removedLast)
    ∧ (∀ st : ImageState, st.volume ≠ none → st.mask ≠ none →
        st.boxes = [] → undo_last_box st = (st, .nothingToUndo))
    ∧ (∀ (st : ImageState) (b1 b2 : BoxAnnot), st.volume ≠ none →
        st.mask ≠ none →
        (undo_last_box (record_box (record_box st b1) b2)).1.boxes
          = st.boxes ++ [b1]
        ∧ (undo_last_box (record_box (record_box st b1) b2)).1.mask
          = st.mask) := by
  refine ⟨?_, ?_, ?_, ?_⟩
  · intro st
    rcases st with ⟨sd, vol, msk, bxs⟩
    cases vol <;> cases msk <;> cases bxs <;> rfl
  · intro st hv hm hb
    rcases st with ⟨sd, vol, msk, bxs⟩
    cases vol with
    | none => exact absurd rfl hv
    | some v =>
        cases msk with
        | none => exact absurd rfl hm
        | some mk =>
            rw [undo_pop sd v mk bxs hb]
            exact ⟨rfl, rfl⟩
  · intro st hv hm hb
    rcases st with ⟨sd, vol, msk, bxs⟩
    cases vol with
    | none => exact absurd rfl hv
    | some v =>
        cases msk with
        | none => exact absurd rfl hm
        | some mk =>
            cases bxs with
            | nil => rfl
            | cons x xs => simp at hb
  · intro st b1 b2 hv hm
    rcases st with ⟨sd, vol, msk, bxs⟩
    cases vol with
    | none => exact absurd rfl hv
    | some v =>
        cases msk with
        | none => exact absurd rfl hm
        | some mk =>
            have h := undo_pop sd v mk (bxs ++ [b1] ++ [b2]) (by simp)
            simp only [record_box]
            rw [h]
            exact ⟨List.dropLast_concat, rfl⟩

/-- Witness for C7 at a concrete loaded state with an empty record list
and two concrete boxes. -/
theorem C7_undo_spec_witness :
    (undo_last_box sampleState).1.mask = sampleState.mask
    ∧ undo_last_box sampleState = (sampleState, UndoStatus.nothingToUndo)
    ∧ (undo_last_box (record_box (record_box sampleState sampleBox1)
        sampleBox2)).1.boxes = sampleState.boxes ++ [sampleBox1]
    ∧ (undo_last_box (record_box (record_box sampleState sampleBox1)
        sampleBox2)).1.mask = sampleState.mask :=
  ⟨C7_undo_spec.1 sampleState,
   C7_undo_spec.2.2.1 sampleState (by simp [sampleState])
      (by simp [sampleState]) rfl,
   (C7_undo_spec.2.2.2 sampleState sampleBox1 sampleBox2
      (by simp [sampleState]) (by simp [sampleState])).1,
   (C7_undo_spec.2.2.2 sampleState sampleBox1 sampleBox2
      (by simp [sampleState]) (by simp [sampleState])).2⟩

/-! Model of load_nifti (nifti_io.py) and MainWindow._load_volume. -/

/-- Raw decoded array as delivered by nibabel's get_fdata: number of axes,
their extents, and the values (axes beyond ndim are read at index 0). -/
structure RawData where
  ndim : Nat
  dims : List Nat
  vals : Nat → Nat → Nat → Nat → ℚ

/-- load_nifti from nifti_io.py, after the external decode: a 4-axis array
is reduced to its first 3D volume along axis 3; then anything other than 2
or 3 axes raises ValueError, modelled as an error result. -/
def load_nifti (r : RawData) : Except String NiftiVolumeM :=
  let r2 : RawData :=
    if r.ndim = 4 then
      { ndim := 3, dims := r.dims.take 3, vals := fun a b c _ => r.vals a b c 0 }
    else r
  if r2.ndim = 2 ∨ r2.ndim = 3 then
    .ok { ndim := r2.ndim, dims := r2.dims, data := fun a b c => r2.vals a b c 0 }
  else
    .error "Unsupported NIfTI dimensions"

/-- MainWindow._load_volume after the file dialog: the decode attempt is
either a failure of the external reader (bad path, corrupt file) or a raw
array handed to load_nifti; on any exception the handler shows a message
and returns with the state untouched, and only on success does it replace
the volume, reset the mask to zeros and clear the record list. -/
def load_volume (st : ImageState) (attempt : Except String RawData) :
    ImageState :=
  match attempt with
  | .error _ => st
  | .ok r =>
      match load_nifti r with
      | .error _ => st
      | .ok vol =>
          { st with volume := some vol,
                    mask := some { dims := vol.dims, vals := fun _ _ _ => 0 },
                    boxes := [] }

/-- C8: load_nifti fails exactly when the input has a number of axes other
than 2, 3 or 4 (a 4-axis input is reduced to its first 3D volume), and on
any failure — external decode failure or unsupported dimensionality — the
per-side state (volume, mask, box records) is left exactly as it was. -/
theorem C8_load_errors_preserve_state :
    (∀ r : RawData,
        (∃ e, load_nifti r = .error e)
          ↔ ¬(r.ndim = 2 ∨ r.ndim = 3 ∨ r.ndim = 4))
    ∧ (∀ (st : ImageState) (e : String), load_volume st (.error e) = st)
    ∧ (∀ (st : ImageState) (r : RawData) (e : String),
        load_nifti r = .error e → load_volume st (.ok r) = st) := by
  refine ⟨?_, fun st e => rfl, ?_⟩
  · intro r
    constructor
    · rintro ⟨e, he⟩ hdim
      by_cases h4 : r.ndim = 4
      · simp [load_nifti, h4] at he
      · rcases hdim with h2 | h3 | h4x
        · simp [load_nifti, h4, h2] at he
        · simp [load_nifti, h4, h3] at he
        · exact h4 h4x
    · intro hdim
      push_neg at hdim
      refine ⟨"Unsupported NIfTI dimensions", ?_⟩
      simp [load_nifti, hdim.1, hdim.2.1, hdim.2.2]
  · intro st r e he
    simp [load_volume, he]

/-- Witness for C8 at concrete inputs: a 1-axis raw array is rejected and
loading it leaves the sample state unchanged. -/
theorem C8_load_errors_preserve_state_witness :
    (∃ e, load_nifti { ndim := 1, dims := [5], vals := fun _ _ _ _ => 0 }
        = .error e)
    ∧ load_volume sampleState (.error "file not found") = sampleState
    ∧ load_volume sampleState
        (.ok { ndim := 1, dims := [5], vals := fun _ _ _ _ => 0 })
        = sampleState :=
  ⟨(C8_load_errors_preserve_state.1
      { ndim := 1, dims := [5], vals := fun _ _ _ _ => 0 }).2 (by decide),
   C8_load_errors_preserve_state.2.1 sampleState "file not found",
   C8_load_errors_preserve_state.2.2 sampleState
      { ndim := 1, dims := [5], vals := fun _ _ _ _ => 0 }
      "Unsupported NIfTI dimensions" rfl⟩

/-! Model of ImageCanvas._compute_box_image_coords (image_canvas.py).
Widget coordinates are float, modelled by rationals; the Python built-in
round uses banker's rounding. -/

/-- The Box emitted by the canvas, in image pixel coordinates. -/
structure Box where
  x0 : Int
  y0 : Int
  x1 : Int
  y1 : Int
deriving DecidableEq, Repr

/-- Model of the Python built-in round: nearest integer, halves to the
even integer. -/
def pyRound (q : ℚ) : Int :=
  if q - ⌊q⌋ < 1 / 2 then ⌊q⌋
  else if 1 / 2 < q - ⌊q⌋ then ⌊q⌋ + 1
  else if ⌊q⌋ % 2 = 0 then ⌊q⌋ else ⌊q⌋ + 1

/-- Model of np.clip on rationals: minimum(maximum(v, lo), hi). -/
def clipQ (v lo hi : ℚ) : ℚ := min (max v lo) hi

/-- Model of np.clip on integers: minimum(maximum(v, lo), hi). -/
def clipI (v lo hi : Int) : Int := min (max v lo) hi

/-- The inner to_img conversion of _compute_box_image_coords: normalize
the widget point against the drawn pixmap rectangle, clip to [0, 1],
scale by (extent - 1), round, and clip into [0, extent - 1]. -/
def to_img (w_img h_img : Nat) (rL rT rW rH : ℚ) (px py : ℚ) : Int × Int :=
  (clipI (pyRound (clipQ ((px - rL) / rW) 0 1 * ((w_img : ℚ) - 1)))
      0 ((w_img : Int) - 1),
   clipI (pyRound (clipQ ((py - rT) / rH) 0 1 * ((h_img : ℚ) - 1)))
      0 ((h_img : Int) - 1))

/-- ImageCanvas._compute_box_image_coords: returns nothing when the drawn
pixmap rectangle is degenerate (width or height at most 1); otherwise maps
the drag start and end points to image coordinates, orders each axis, and
rejects boxes whose width or height is below 2; mouseReleaseEvent emits a
boxDrawn signal (from which the record is created) exactly when a Box is
returned. -/
def compute_box_image_coords (w_img h_img : Nat) (rL rT rW rH : ℚ)
    (sx sy ex ey : ℚ) : Option Box :=
  if rW ≤ 1 ∨ rH ≤ 1 then none
  else
    if max (to_img w_img h_img rL rT rW rH sx sy).1
          (to_img w_img h_img rL rT rW rH ex ey).1
        - min (to_img w_img h_img rL rT rW rH sx sy).1
          (to_img w_img h_img rL rT rW rH ex ey).1 < 2
      ∨ max (to_img w_img h_img rL rT rW rH sx sy).2
          (to_img w_img h_img rL rT rW rH ex ey).2
        - min (to_img w_img h_img rL rT rW rH sx sy).2
          (to_img w_img h_img rL rT rW rH ex ey).2 < 2 then none
    else
      some { x0 := min (to_img w_img h_img rL rT rW rH sx sy).1
                (to_img w_img h_img rL rT rW rH ex ey).1,
             y0 := min (to_img w_img h_img rL rT rW rH sx sy).2
                (to_img w_img h_img rL rT rW rH ex ey).2,
             x1 := max (to_img w_img h_img rL rT rW rH sx sy).1
                (to_img w_img h_img rL rT rW rH ex ey).1,
             y1 := max (to_img w_img h_img rL rT rW rH sx sy).2
                (to_img w_img h_img rL rT rW rH ex ey).2 }

/-- C9: a completed box gesture whose image-pixel width or height is below
the threshold 2 is silently discarded: _compute_box_image_coords returns
nothing, so mouseReleaseEvent emits no Box, no record is created and no
error is surfaced. -/
theorem C9_small_box_discarded (w_img h_img : Nat) (rL rT rW rH : ℚ)
    (sx sy ex ey : ℚ)
    (hsmall : max (to_img w_img h_img rL rT rW rH sx sy).1
          (to_img w_img h_img rL rT rW rH ex ey).1
        - min (to_img w_img h_img rL rT rW rH sx sy).1
          (to_img w_img h_img rL rT rW rH ex ey).1 < 2
      ∨ max (to_img w_img h_img rL rT rW rH sx sy).2
          (to_img w_img h_img rL rT rW rH ex ey).2
        - min (to_img w_img h_img rL rT rW rH sx sy).2
          (to_img w_img h_img rL rT rW rH ex ey).2 < 2) :
    compute_box_image_coords w_img h_img rL rT rW rH sx sy ex ey = none := by
  unfold compute_box_image_coords
  by_cases h1 : rW ≤ 1 ∨ rH ≤ 1
  · rw [if_pos h1]
  · rw [if_neg h1, if_pos hsmall]

/-- C10: every Box the canvas emits is clipped into the display image and
canonically ordered: 0 <= x0 < x1 <= W-1 and 0 <= y0 < y1 <= H-1 with
width and height at least 2, for every drag, including drags that start or
end outside the drawn image area. -/
theorem C10_emitted_box_within_bounds (w_img h_img : Nat)
    (rL rT rW rH sx sy ex ey : ℚ) (b : Box)
    (hb : compute_box_image_coords w_img h_img rL rT rW rH sx sy ex ey
        = some b) :
    0 ≤ b.x0 ∧ b.x0 < b.x1 ∧ b.x1 ≤ (w_img : Int) - 1
    ∧ 0 ≤ b.y0 ∧ b.y0 < b.y1 ∧ b.y1 ≤ (h_img : Int) - 1
    ∧ 2 ≤ b.x1 - b.x0 ∧ 2 ≤ b.y1 - b.y0 := by
  unfold compute_box_image_coords at hb
  by_cases h1 : rW ≤ 1 ∨ rH ≤ 1
  · rw [if_pos h1] at hb
    cases hb
  · rw [if_neg h1] at hb
    by_cases h2 : max (to_img w_img h_img rL rT rW rH sx sy).1
          (to_img w_img h_img rL rT rW rH ex ey).1
        - min (to_img w_img h_img rL rT rW rH sx sy).1
          (to_img w_img h_img rL rT rW rH ex ey).1 < 2
      ∨ max (to_img w_img h_img rL rT rW rH sx sy).2
          (to_img w_img h_img rL rT rW rH ex ey).2
        - min (to_img w_img h_img rL rT rW rH sx sy).2
          (to_img w_img h_img rL rT rW rH ex ey).2 < 2
    · rw [if_pos h2] at hb
      cases hb
    · rw [if_neg h2] at hb
      have hbv := (Option.some.inj hb).symm
      subst hbv
      push_neg at h2
      simp only [to_img, clipI] at h2 ⊢
      omega

/-- Evaluation of to_img at the pixmap rectangle origin. -/
lemma to_img_eval_origin : to_img 10 10 0 0 100 100 0 0 = (0, 0) := by
  norm_num [to_img, clipQ, clipI, pyRound, min_def, max_def]

/-- Evaluation of to_img at the far corner of the pixmap rectangle. -/
lemma to_img_eval_corner : to_img 10 10 0 0 100 100 100 100 = (9, 9) := by
  norm_num [to_img, clipQ, clipI, pyRound, min_def, max_def]

/-- Evaluation of to_img one widget pixel from the origin. -/
lemma to_img_eval_near : to_img 10 10 0 0 100 100 1 1 = (0, 0) := by
  norm_num [to_img, clipQ, clipI, pyRound, min_def, max_def]

/-- A concrete degenerate drag: both endpoints map to image pixel (0,0). -/
lemma small_drag_eval :
    max (to_img 10 10 0 0 100 100 0 0).1 (to_img 10 10 0 0 100 100 1 1).1
        - min (to_img 10 10 0 0 100 100 0 0).1
          (to_img 10 10 0 0 100 100 1 1).1 < 2
      ∨ max (to_img 10 10 0 0 100 100 0 0).2
          (to_img 10 10 0 0 100 100 1 1).2
        - min (to_img 10 10 0 0 100 100 0 0).2
          (to_img 10 10 0 0 100 100 1 1).2 < 2 := by
  rw [to_img_eval_origin, to_img_eval_near]
  decide

/-- A concrete full-rectangle drag produces the box (0,0)-(9,9). -/
lemma compute_box_eval_full :
    compute_box_image_coords 10 10 0 0 100 100 0 0 100 100
      = some { x0 := 0, y0 := 0, x1 := 9, y1 := 9 } := by
  unfold compute_box_image_coords
  rw [to_img_eval_origin, to_img_eval_corner]
  norm_num

/-- Witness for C9 at a concrete degenerate drag on a 10-by-10 image. -/
theorem C9_small_box_discarded_witness :
    compute_box_image_coords 10 10 0 0 100 100 0 0 1 1 = none :=
  C9_small_box_discarded 10 10 0 0 100 100 0 0 1 1 small_drag_eval

/-- Witness for C10 at a concrete full-rectangle drag on a 10-by-10
image. -/
theorem C10_emitted_box_within_bounds_witness :
    0 ≤ (0 : Int) ∧ (0 : Int) < 9 ∧ (9 : Int) ≤ ((10 : Nat) : Int) - 1
    ∧ 0 ≤ (0 : Int) ∧ (0 : Int) < 9 ∧ (9 : Int) ≤ ((10 : Nat) : Int) - 1
    ∧ 2 ≤ (9 : Int) - 0 ∧ 2 ≤ (9 : Int) - 0 :=
  C10_emitted_box_within_bounds 10 10 0 0 100 100 0 0 100 100
    { x0 := 0, y0 := 0, x1 := 9, y1 := 9 } compute_box_eval_full

end Segtool
